import Mathlib

/-!
Verification of the `add_to_channel` repository: three Telegram batch
automation scripts (`add_patients_to_channel.py`, `safe_dm_invite.py`,
`invite_users_to_channel.py`).

The scripts are shallowly embedded.  Remote Telegram calls are abstracted
by an outcome oracle per work item (the outcome the remote interaction
would produce for that item); everything else — loop structure, counters,
daily limits, CSV dedup loading, result logging, sleeps — is translated
directly from the Python source.  A run is modelled as the trace of its
observable effects (attempt prints, remote invocations, CSV record
appends, sleeps), in the exact order the source performs them.
-/

namespace AddToChannel

/-- A row of a result CSV, reduced to the fields the claims are about:
the identifying key (`phone` column in `add_patients_to_channel.py`,
`user_id` column in the other two scripts), `status`, and `reason`.
Timestamp and display-name columns carry no information relevant to the
claims and are omitted. -/
structure Record where
  key : String
  status : String
  reason : String
deriving DecidableEq

/-- Observable effects of a run, in source order:
`attempt k` — the per-item loop body was entered for the item with key
`k` (the `[i/limit] ...` progress print);
`invoke k` — a remote action capability was invoked for key `k`
(contact import / entity resolution, leading to invite or message send);
`write r` — one row `r` was appended to the output CSV;
`sleepRand lo hi` — `asyncio.sleep(random.randint(lo, hi))`, the
randomized inter-item delay;
`sleepFixedMs ms` — a fixed `asyncio.sleep` of `ms` milliseconds
(`0.5` in the dry-run branch of `add_patients_to_channel.py`, `1` in
`safe_dm_invite.py`'s dry-run branch and per-item in
`invite_users_to_channel.py`);
`sleepWait w` — honoring a server-signalled FloodWait of `w` seconds;
`sleepBatch s` — `invite_users_to_channel.py`'s inter-batch delay. -/
inductive Event where
  | attempt (key : String)
  | invoke (key : String)
  | write (r : Record)
  | sleepRand (lo hi : Nat)
  | sleepFixedMs (ms : Nat)
  | sleepWait (w : Nat)
  | sleepBatch (s : Nat)
deriving DecidableEq

/-- Safety settings of `add_patients_to_channel.py` and
`safe_dm_invite.py`: `DAILY_LIMIT`, `MIN_DELAY`, `MAX_DELAY`, and the
`--dry-run` flag. -/
structure RunConfig where
  dailyLimit : Nat
  minDelay : Nat
  maxDelay : Nat
  dryRun : Bool

/-- The outcome the remote interaction produces for one work item, as
classified by the scripts' exception handlers:
`normal st rs` — the try-block completes having set `status = st` and
`reason = rs` (covers Success, Skipped/AlreadyMember, NotOnTelegram,
UserNotFound, PrivacyRestricted, ..., and the generic
`Other:<truncated>` handler);
`peerFlood` — `PeerFloodError` escapes to the per-item loop;
`floodWait w` — `FloodWaitError` with `e.seconds = w` escapes to the
per-item loop. -/
inductive ItemResult where
  | normal (status reason : String)
  | peerFlood
  | floodWait (w : Nat)
deriving DecidableEq

/-! ## Phone normalization (`add_patients_to_channel.py`, lines 65-92) -/

/-- Python `str.strip()` on a character list: drop leading and trailing
whitespace. -/
def pyStrip (l : List Char) : List Char :=
  ((l.dropWhile Char.isWhitespace).reverse.dropWhile Char.isWhitespace).reverse

/-- `phone.strip().replace(' ', '').replace('-', '')`. -/
def cleanPhone (l : List Char) : List Char :=
  (pyStrip l).filter (fun c => !(c == ' ' || c == '-'))

/-- Python `str.strip()` on strings. -/
def pyStripStr (s : String) : String :=
  ⟨pyStrip s.data⟩

/-- `digits` of `normalize_phone`: keep a leading `+`, remove all
non-digit characters elsewhere.  `re.sub(r'[^\d]', '', s)` is modelled
as `List.filter Char.isDigit`. -/
def phone_digits (phone : List Char) : List Char :=
  if (['+'] : List Char).isPrefixOf phone then '+' :: (phone.drop 1).filter Char.isDigit
  else phone.filter Char.isDigit

/-- `normalize_phone` from `add_patients_to_channel.py` on the
character list of the input string. -/
def normalize_phone_chars (l : List Char) : List Char :=
  let phone := cleanPhone l
  if phone.isEmpty || phone.length < 8 then []
  else
    let digits : List Char := phone_digits phone
    if (['0', '9'] : List Char).isPrefixOf digits && digits.length == 10 then
      ['+', '2', '5', '1'] ++ digits.drop 1
    else if (['+', '2', '5', '1'] : List Char).isPrefixOf digits && digits.length == 13 then
      digits
    else if (['2', '5', '1'] : List Char).isPrefixOf digits && digits.length == 12 then
      '+' :: digits
    else []

/-- `normalize_phone` on strings. -/
def normalize_phone (s : String) : String :=
  ⟨normalize_phone_chars s.data⟩

/-! ## CSV loading (`read_patient_csv`, `read_users_from_csv`) -/

/-- An input row of the patient CSV as seen by `csv.DictReader`
(`Name`, `C-Phone`, `Card No.` columns). -/
structure APRow where
  name : String
  cphone : String
  cardNo : String
deriving DecidableEq

/-- The dictionary `read_patient_csv` appends per kept row. -/
structure Patient where
  card_no : String
  name : String
  first_name : String
  last_name : String
  phone : String
deriving DecidableEq

/-- The deduplication key of a patient row: `none` when the row is
skipped (`C-Phone` empty after strip, or `normalize_phone` returns the
empty string), otherwise the normalized phone. -/
def apKey (r : APRow) : Option String :=
  let phone := pyStripStr r.cphone
  if phone == "" then none
  else
    let normalized := normalize_phone phone
    if normalized == "" then none else some normalized

/-- Build the patient dict from a kept row whose normalized phone is
`k`: `name.split()` first/last-name split, `'Patient'` fallback. -/
def mkPatient (r : APRow) (k : String) : Patient :=
  let name := pyStripStr r.name
  let name_parts := (name.split Char.isWhitespace).filter (fun s => !(s == ""))
  { card_no := pyStripStr r.cardNo
    name := name
    first_name := match name_parts with | [] => "Patient" | f :: _ => f
    last_name := match name_parts with | [] => "" | _ :: t => String.intercalate " " t
    phone := k }

/-- Row loop of `read_patient_csv`, carrying the `seen_phones` set
(modelled as a list). -/
def apReadGo : List APRow → List String → List Patient
  | [], _ => []
  | r :: rest, seen =>
    match apKey r with
    | none => apReadGo rest seen
    | some k =>
      if k ∈ seen then apReadGo rest seen
      else mkPatient r k :: apReadGo rest (k :: seen)

/-- `read_patient_csv` from `add_patients_to_channel.py` (lines
103-148), starting from the data rows handed to `csv.DictReader`
(the two title rows are skipped before the reader is built). -/
def read_patient_csv (rows : List APRow) : List Patient :=
  apReadGo rows []

/-- An input row of the user CSV (`user_id`, `username`, `first_name`,
`last_name` columns); also the dict entry produced by
`read_users_from_csv`, and the work item of `safe_dm_invite.py` and
`invite_users_to_channel.py`. -/
structure UserRow where
  user_id : String
  username : String
  first_name : String
  last_name : String
deriving DecidableEq

/-- The deduplication key of a user row in `read_users_from_csv`:
`none` when both stripped `user_id` and stripped `username` are empty
(row skipped), otherwise the stripped `user_id` (possibly empty —
rows without a `user_id` are never entered into `seen_user_ids`). -/
def iuKey (r : UserRow) : Option String :=
  let user_id := pyStripStr r.user_id
  let username := pyStripStr r.username
  if user_id == "" && username == "" then none else some user_id

/-- The dict `read_users_from_csv` appends: stripped `user_id` and
`username`, raw `first_name` and `last_name`. -/
def mkUserRow (r : UserRow) : UserRow :=
  { user_id := pyStripStr r.user_id
    username := pyStripStr r.username
    first_name := r.first_name
    last_name := r.last_name }

/-- Row loop of `read_users_from_csv`, carrying `seen_user_ids`. -/
def iuReadGo : List UserRow → List String → List UserRow
  | [], _ => []
  | r :: rest, seen =>
    match iuKey r with
    | none => iuReadGo rest seen
    | some k =>
      if !(k == "") && k ∈ seen then iuReadGo rest seen
      else mkUserRow r :: iuReadGo rest (if k == "" then seen else k :: seen)

/-- `read_users_from_csv` from `invite_users_to_channel.py`
(lines 77-110). -/
def read_users_from_csv (rows : List UserRow) : List UserRow :=
  iuReadGo rows []

/-! ## Resume filtering (processed sets) -/

/-- `get_processed_phones` from `add_patients_to_channel.py` (lines
151-161): the `phone` column values of the existing result log, rows
with an empty phone ignored.  The Python set is modelled as the list of
collected keys; only membership is ever used. -/
def get_processed_phones (log : List Record) : List String :=
  log.filterMap (fun r => if r.key == "" then none else some r.key)

/-- The `remaining` list of `add_patients_to_channel.py` (line 226):
patients whose phone is not in the processed set. -/
def remaining_patients (log : List Record) (patients : List Patient) : List Patient :=
  patients.filter (fun p => !((get_processed_phones log).contains p.phone))

/-- `get_processed_users` from `safe_dm_invite.py` (lines 61-72): the
`user_id` column values of the existing result log, empty ones ignored
— any prior row counts, regardless of its status. -/
def get_processed_users (log : List Record) : List String :=
  log.filterMap (fun r => if r.key == "" then none else some r.key)

/-- The `users_to_contact` list of `safe_dm_invite.py` (lines 104-111):
rows with a nonempty `user_id` not in the processed set. -/
def users_to_contact (log : List Record) (rows : List UserRow) : List UserRow :=
  rows.filter (fun u => !(u.user_id == "") && !((get_processed_users log).contains u.user_id))

/-! ## The per-item loop of `add_patients_to_channel.py` (lines 254-403)

The loop state is the list of remaining items and `count` (incremented
on `Success` and on dry-run items).  `f` is the outcome oracle for the
try-block.  The post-sleep `DeleteContactsRequest` cleanup (lines
398-403) has no observable effect relevant to any claim and is omitted.
-/

def apRun (cfg : RunConfig) (f : Patient → ItemResult) :
    List Patient → Nat → List Event
  | [], _ => []
  | p :: rest, count =>
    if cfg.dailyLimit ≤ count then []
    else
      Event.attempt p.phone ::
        if cfg.dryRun then
          Event.write ⟨p.phone, "DryRun", "Simulated"⟩ :: Event.sleepFixedMs 500 ::
            apRun cfg f rest (count + 1)
        else
          Event.invoke p.phone ::
            match f p with
            | .peerFlood => [Event.write ⟨p.phone, "Failed", "PeerFlood"⟩]
            | .floodWait w =>
              if 600 < w then
                [Event.write ⟨p.phone, "Failed", "FloodWait_" ++ toString w ++ "s"⟩]
              else
                Event.sleepWait w :: apRun cfg f rest count
            | .normal st rs =>
              let count' := if st == "Success" then count + 1 else count
              Event.write ⟨p.phone, st, rs⟩ ::
                if count' < cfg.dailyLimit && !rest.isEmpty then
                  Event.sleepRand cfg.minDelay cfg.maxDelay :: apRun cfg f rest count'
                else
                  apRun cfg f rest count'

/-! ## The per-item loop of `safe_dm_invite.py` (lines 128-216)

Same state shape.  The dry-run branch `continue`s before the
`write_result` call, so it logs nothing; a `FloodWaitError` `break`s
without logging or sleeping. -/

def dmRun (cfg : RunConfig) (f : UserRow → ItemResult) :
    List UserRow → Nat → List Event
  | [], _ => []
  | u :: rest, count =>
    if cfg.dailyLimit ≤ count then []
    else
      Event.attempt u.user_id ::
        if cfg.dryRun then
          Event.sleepFixedMs 1000 :: dmRun cfg f rest (count + 1)
        else
          Event.invoke u.user_id ::
            match f u with
            | .peerFlood => [Event.write ⟨u.user_id, "Failed", "PeerFlood"⟩]
            | .floodWait _ => []
            | .normal st rs =>
              let count' := if st == "Success" then count + 1 else count
              Event.write ⟨u.user_id, st, rs⟩ ::
                if count' < cfg.dailyLimit then
                  Event.sleepRand cfg.minDelay cfg.maxDelay :: dmRun cfg f rest count'
                else
                  dmRun cfg f rest count'

/-! ## The batch loop of `invite_users_to_channel.py` (lines 254-322)

No daily limit, no resume filtering.  `PeerFloodError` and
`FloodWaitError` are caught inside `add_user_to_channel` and returned
as reason strings; the loop only special-cases reasons starting with
`FloodWait_` (sleep that long, then continue).  Records are buffered
per batch and flushed by `write_result_to_csv` after the batch's
per-item sleeps. -/

/-- Outcome oracle for one user of `invite_users_to_channel.py`:
entity resolution fails (`notFound`), membership check positive
(`alreadyMember`), invite succeeds (`added`), `add_user_to_channel`
returns `(False, r)` for a non-FloodWait reason `r` — including
`"PeerFlood"` — (`failed r`), or returns the FloodWait reason
(`floodWait w`). -/
inductive IuOutcome where
  | notFound
  | alreadyMember
  | added
  | failed (reason : String)
  | floodWait (w : Nat)
deriving DecidableEq

/-- The result row buffered for one user (lines 301-310). -/
def iuRecord (f : UserRow → IuOutcome) (u : UserRow) : Record :=
  match f u with
  | .notFound => ⟨u.user_id, "Failed", "UserNotFound"⟩
  | .alreadyMember => ⟨u.user_id, "Skipped", "AlreadyMember"⟩
  | .added => ⟨u.user_id, "Success", "Success"⟩
  | .failed r => ⟨u.user_id, "Failed", r⟩
  | .floodWait w => ⟨u.user_id, "Failed", "FloodWait_" ++ toString w ++ "s"⟩

/-- The effects of processing one user (lines 261-313): progress print,
entity resolution, the FloodWait sleep when signalled, and the fixed
1-second per-item sleep.  The record itself is only buffered here. -/
def iuUserEvents (f : UserRow → IuOutcome) (u : UserRow) : List Event :=
  Event.attempt u.user_id :: Event.invoke u.user_id ::
    (match f u with
     | .floodWait w => [Event.sleepWait w]
     | _ => []) ++ [Event.sleepFixedMs 1000]

/-- Effects of one batch's user loop. -/
def iuBatchEvents (f : UserRow → IuOutcome) : List UserRow → List Event
  | [] => []
  | u :: rest => iuUserEvents f u ++ iuBatchEvents f rest

/-- The per-batch flush `write_result_to_csv(results, OUTPUT_FILE)`
(line 316): one append per buffered record. -/
def iuFlush (f : UserRow → IuOutcome) (batch : List UserRow) : List Event :=
  batch.map (fun u => Event.write (iuRecord f u))

/-- The batch loop of `invite_users_to_channel` (lines 254-322) with
batch size `bs` and batch delay `bd`.  Python's `range(0, n, 0)` raises
for step `0`; `bs = 0` never occurs and is mapped to the empty trace. -/
def iuRun (f : UserRow → IuOutcome) (bs bd : Nat) (us : List UserRow) : List Event :=
  if hbs : bs = 0 then []
  else if hus : us = [] then []
  else
    iuBatchEvents f (us.take bs) ++ iuFlush f (us.take bs) ++
      (if us.drop bs = [] then []
       else Event.sleepBatch bd :: iuRun f bs bd (us.drop bs))
termination_by us.length
decreasing_by
  simp only [List.length_drop]
  exact Nat.sub_lt (List.length_pos.mpr hus) (Nat.pos_of_ne_zero hbs)

/-! ## Startup and exit codes -/

/-- The startup environment relevant to exit codes: whether
`TG_API_ID`/`TG_API_HASH`/`TG_TARGET_CHANNEL` are set and whether the
input CSV file exists. -/
structure StartupEnv where
  apiIdSet : Bool
  apiHashSet : Bool
  targetChannelSet : Bool
  csvExists : Bool

/-- `read_patient_csv` raises `FileNotFoundError` when the CSV file is
missing (line 106-107); otherwise it returns the loaded rows. -/
def read_patient_csv_checked (csvExists : Bool) (rows : List APRow) :
    Except String (List Patient) :=
  if csvExists then .ok (read_patient_csv rows) else .error "CSV file not found"

/-- Process exit code of `add_patients_to_channel.py`: the module-level
validation calls `sys.exit(1)` when API credentials or the target
channel are unset (lines 52-59); inside `main`, a failing
`read_patient_csv` is caught (`except Exception ... return`, lines
217-222), so the coroutine returns normally and the process exits 0;
every non-config path (including quota and throttle stops) falls
through to a normal exit 0. -/
def ap_process_exit (e : StartupEnv) (rows : List APRow) : Nat :=
  if !(e.apiIdSet && e.apiHashSet) then 1
  else if !e.targetChannelSet then 1
  else
    match read_patient_csv_checked e.csvExists rows with
    | .error _ => 0
    | .ok _ => 0

/-- `read_users_from_csv` behind its existence check (lines 82-83). -/
def read_users_from_csv_checked (csvExists : Bool) (rows : List UserRow) :
    Except String (List UserRow) :=
  if csvExists then .ok (read_users_from_csv rows) else .error "CSV file not found"

/-- Process exit code of `invite_users_to_channel.py`: the module-level
validation raises `ValueError` (uncaught, exit nonzero) when config is
missing (lines 43-50); a missing CSV is caught in
`invite_users_to_channel` (lines 223-228, `return`), and `main`'s
`try/except/finally` swallows everything else, so the process exits 0. -/
def iu_process_exit (e : StartupEnv) (rows : List UserRow) : Nat :=
  if !(e.apiIdSet && e.apiHashSet) then 1
  else if !e.targetChannelSet then 1
  else
    match read_users_from_csv_checked e.csvExists rows with
    | .error _ => 0
    | .ok _ => 0

/-! ## Trace observers -/

def isAttempt : Event → Bool
  | .attempt _ => true
  | _ => false

def isInvoke : Event → Bool
  | .invoke _ => true
  | _ => false

def isWrite : Event → Bool
  | .write _ => true
  | _ => false

def isSuccessWrite : Event → Bool
  | .write r => r.status == "Success"
  | _ => false

def isSleepWait : Event → Bool
  | .sleepWait _ => true
  | _ => false

def isSleepRand : Event → Bool
  | .sleepRand _ _ => true
  | _ => false

/-- Every write in the trace has status `s` (non-write events pass). -/
def writeStatusIs (s : String) : Event → Bool
  | .write r => r.status == s
  | _ => true

/-- Every `sleepRand` event carries bounds `(lo, hi)`. -/
def sleepRandBoundsOk (lo hi : Nat) : List Event → Bool
  | [] => true
  | .sleepRand l h :: rest => l == lo && h == hi && sleepRandBoundsOk lo hi rest
  | _ :: rest => sleepRandBoundsOk lo hi rest

/-- Every `sleepRand` event carries bounds `(lo, hi)` AND is
immediately followed by the next item's attempt — in particular the
trace never ends in an inter-item sleep. -/
def sleepRandFollowedOk (lo hi : Nat) : List Event → Bool
  | [] => true
  | .sleepRand l h :: rest =>
    l == lo && h == hi &&
      (match rest with | .attempt _ :: _ => true | _ => false) &&
      sleepRandFollowedOk lo hi rest
  | _ :: rest => sleepRandFollowedOk lo hi rest

/-! # Lemmas -/

/-! ## Phone normalization -/

lemma mem_drop_one_phone_digits {phone : List Char} {c : Char}
    (h : c ∈ (phone_digits phone).drop 1) : c.isDigit = true := by
  unfold phone_digits at h
  split at h
  · simp only [List.drop_succ_cons, List.drop_zero] at h
    exact (List.mem_filter.mp h).2
  · exact (List.mem_filter.mp (List.mem_of_mem_drop h)).2

lemma phone_digits_eq_self {phone : List Char} (h0 : ¬ (['+'] : List Char).isPrefixOf phone)
    (hd : ∀ c ∈ phone, c.isDigit = true) : phone_digits phone = phone := by
  unfold phone_digits
  rw [if_neg h0, List.filter_eq_self]
  exact hd

lemma prefix_eq_append_drop {l₁ l₂ : List Char} (h : l₁.isPrefixOf l₂) :
    l₂ = l₁ ++ l₂.drop l₁.length := by
  have hp : l₁ <+: l₂ := by
    rwa [List.isPrefixOf_iff_prefix] at h
  have ht := List.prefix_iff_eq_take.mp hp
  conv_lhs => rw [← List.take_append_drop l₁.length l₂]
  rw [← ht]

/-- C10: `normalize_phone` returns the empty string or `+251` followed
by exactly 9 digit characters (13 characters total); a cleaned input of
exactly 10 digit characters starting with `09` maps to `+251` followed
by its last 9 digits.  Stated on the character-list core
`normalize_phone_chars` (the string version is its literal wrapper). -/
theorem normalize_phone_shape (s : List Char) :
    (normalize_phone_chars s = [] ∨
      ∃ ds : List Char, normalize_phone_chars s = ['+', '2', '5', '1'] ++ ds ∧
        ds.length = 9 ∧ ∀ c ∈ ds, c.isDigit = true) ∧
    ((['0', '9'] : List Char).isPrefixOf (cleanPhone s) = true →
      (cleanPhone s).length = 10 →
      (∀ c ∈ cleanPhone s, c.isDigit = true) →
      normalize_phone_chars s = ['+', '2', '5', '1'] ++ (cleanPhone s).drop 1) := by
  constructor
  · simp only [normalize_phone_chars]
    by_cases h8 : ((cleanPhone s).isEmpty || decide ((cleanPhone s).length < 8)) = true
    · rw [if_pos h8]
      exact Or.inl rfl
    · rw [if_neg h8]
      by_cases h1 : ((['0', '9'] : List Char).isPrefixOf (phone_digits (cleanPhone s)) &&
          (phone_digits (cleanPhone s)).length == 10) = true
      · rw [if_pos h1]
        obtain ⟨hpre, hlen⟩ := Bool.and_eq_true_iff.mp h1
        refine Or.inr ⟨(phone_digits (cleanPhone s)).drop 1, rfl, ?_, ?_⟩
        · rw [List.length_drop, beq_iff_eq.mp hlen]
        · exact fun c hc => mem_drop_one_phone_digits hc
      · rw [if_neg h1]
        by_cases h2 : ((['+', '2', '5', '1'] : List Char).isPrefixOf
            (phone_digits (cleanPhone s)) && (phone_digits (cleanPhone s)).length == 13) = true
        · rw [if_pos h2]
          obtain ⟨hpre, hlen⟩ := Bool.and_eq_true_iff.mp h2
          refine Or.inr ⟨(phone_digits (cleanPhone s)).drop 4, ?_, ?_, ?_⟩
          · exact prefix_eq_append_drop hpre
          · rw [List.length_drop, beq_iff_eq.mp hlen]
          · intro c hc
            have h41 : (phone_digits (cleanPhone s)).drop 4 =
                ((phone_digits (cleanPhone s)).drop 1).drop 3 := by
              rw [List.drop_drop]
            rw [h41] at hc
            exact mem_drop_one_phone_digits (List.mem_of_mem_drop hc)
        · rw [if_neg h2]
          by_cases h3 : ((['2', '5', '1'] : List Char).isPrefixOf
              (phone_digits (cleanPhone s)) && (phone_digits (cleanPhone s)).length == 12) = true
          · rw [if_pos h3]
            obtain ⟨hpre, hlen⟩ := Bool.and_eq_true_iff.mp h3
            refine Or.inr ⟨(phone_digits (cleanPhone s)).drop 3, ?_, ?_, ?_⟩
            · conv_lhs => rw [prefix_eq_append_drop hpre]
              rfl
            · rw [List.length_drop, beq_iff_eq.mp hlen]
            · intro c hc
              have h31 : (phone_digits (cleanPhone s)).drop 3 =
                  ((phone_digits (cleanPhone s)).drop 1).drop 2 := by
                rw [List.drop_drop]
              rw [h31] at hc
              exact mem_drop_one_phone_digits (List.mem_of_mem_drop hc)
          · rw [if_neg h3]
            exact Or.inl rfl
  · intro hpre hlen hdig
    have hempty : (cleanPhone s).isEmpty = false := by
      cases h : cleanPhone s
      · rw [h] at hlen
        simp at hlen
      · rfl
    have hplus : ¬ (['+'] : List Char).isPrefixOf (cleanPhone s) = true := by
      intro hp
      have hh : (cleanPhone s).head? = some '+' := by
        rw [prefix_eq_append_drop hp]
        rfl
      have hh0 : (cleanPhone s).head? = some '0' := by
        rw [prefix_eq_append_drop hpre]
        rfl
      rw [hh] at hh0
      exact absurd hh0 (by decide)
    have hdigits : phone_digits (cleanPhone s) = cleanPhone s :=
      phone_digits_eq_self hplus hdig
    simp only [normalize_phone_chars]
    rw [if_neg (by rw [hempty, hlen]; decide), hdigits, if_pos (by rw [hpre, hlen]; rfl)]

/-- Witness for `normalize_phone_shape`: the local number `0912345678`
satisfies the hypotheses and normalizes to `+251912345678`. -/
theorem normalize_phone_shape_witness :
    ((['0', '9'] : List Char).isPrefixOf
        (cleanPhone ['0', '9', '1', '2', '3', '4', '5', '6', '7', '8']) = true ∧
      (cleanPhone ['0', '9', '1', '2', '3', '4', '5', '6', '7', '8']).length = 10 ∧
      (∀ c ∈ cleanPhone ['0', '9', '1', '2', '3', '4', '5', '6', '7', '8'],
        c.isDigit = true)) ∧
    normalize_phone_chars ['0', '9', '1', '2', '3', '4', '5', '6', '7', '8'] =
      ['+', '2', '5', '1'] ++
        (cleanPhone ['0', '9', '1', '2', '3', '4', '5', '6', '7', '8']).drop 1 :=
  ⟨⟨by decide, by decide, by decide⟩,
    (normalize_phone_shape ['0', '9', '1', '2', '3', '4', '5', '6', '7', '8']).2
      (by decide) (by decide) (by decide)⟩

/-! ## CSV loading: deduplication by key, first occurrence wins -/

@[simp] lemma mkPatient_phone (r : APRow) (k : String) : (mkPatient r k).phone = k := rfl

lemma apReadGo_nodup : ∀ (rows : List APRow) (seen : List String),
    ((apReadGo rows seen).map Patient.phone).Nodup ∧
      ∀ k ∈ (apReadGo rows seen).map Patient.phone, k ∉ seen := by
  intro rows
  induction rows with
  | nil => intro seen; simp [apReadGo]
  | cons r rest ih =>
    intro seen
    cases hkey : apKey r with
    | none =>
      simpa only [apReadGo, hkey] using ih seen
    | some k =>
      by_cases hmem : k ∈ seen
      · simpa only [apReadGo, hkey, if_pos hmem] using ih seen
      · obtain ⟨hnd, hns⟩ := ih (k :: seen)
        simp only [apReadGo, hkey, if_neg hmem, List.map_cons, List.nodup_cons,
          mkPatient_phone, List.mem_cons]
        refine ⟨⟨fun hc => (hns k hc) (List.mem_cons_self k seen), hnd⟩, ?_⟩
        rintro k2 (rfl | hk2)
        · exact hmem
        · exact fun hs => (hns k2 hk2) (List.mem_cons_of_mem _ hs)

lemma apReadGo_find? : ∀ (rows : List APRow) (seen : List String) (k : String),
    k ∉ seen →
      (apReadGo rows seen).find? (fun p => p.phone == k) =
        (rows.find? (fun r => apKey r == some k)).map (fun r => mkPatient r k) := by
  intro rows
  induction rows with
  | nil => intro seen k _; rfl
  | cons r rest ih =>
    intro seen k hk
    cases hkey : apKey r with
    | none =>
      rw [List.find?_cons_of_neg _ (by simp [hkey]), show apReadGo (r :: rest) seen
        = apReadGo rest seen by simp only [apReadGo, hkey]]
      exact ih seen k hk
    | some k2 =>
      by_cases hkk : k2 = k
      · subst hkk
        rw [show apReadGo (r :: rest) seen = mkPatient r k2 :: apReadGo rest (k2 :: seen)
            by simp only [apReadGo, hkey, if_neg hk]]
        rw [List.find?_cons_of_pos _ (by simp), List.find?_cons_of_pos _ (by simp [hkey])]
        rfl
      · rw [List.find?_cons_of_neg _ (by simp [hkey, hkk])]
        by_cases hmem : k2 ∈ seen
        · rw [show apReadGo (r :: rest) seen = apReadGo rest seen
            by simp only [apReadGo, hkey, if_pos hmem]]
          exact ih seen k hk
        · rw [show apReadGo (r :: rest) seen = mkPatient r k2 :: apReadGo rest (k2 :: seen)
            by simp only [apReadGo, hkey, if_neg hmem]]
          rw [List.find?_cons_of_neg _ (by simp [hkk])]
          refine ih (k2 :: seen) k ?_
          intro hc
          rcases List.mem_cons.mp hc with hceq | hc2
          · exact hkk hceq.symm
          · exact hk hc2

/-- The nonempty `user_id` keys of a loaded user list. -/
def nonemptyIds (us : List UserRow) : List String :=
  us.filterMap (fun u => if u.user_id == "" then none else some u.user_id)

@[simp] lemma mkUserRow_user_id (r : UserRow) :
    (mkUserRow r).user_id = pyStripStr r.user_id := rfl

lemma iuKey_eq_some {r : UserRow} {k : String} (h : iuKey r = some k) :
    pyStripStr r.user_id = k := by
  simp only [iuKey] at h
  split at h
  · cases h
  · exact Option.some.inj h

lemma iuReadGo_nodup : ∀ (rows : List UserRow) (seen : List String),
    (nonemptyIds (iuReadGo rows seen)).Nodup ∧
      ∀ k ∈ nonemptyIds (iuReadGo rows seen), k ∉ seen := by
  intro rows
  induction rows with
  | nil => intro seen; simp [iuReadGo, nonemptyIds]
  | cons r rest ih =>
    intro seen
    cases hkey : iuKey r with
    | none => simpa only [iuReadGo, hkey] using ih seen
    | some k =>
      have htrim : pyStripStr r.user_id = k := iuKey_eq_some hkey
      by_cases hke : k = ""
      · rw [show iuReadGo (r :: rest) seen = mkUserRow r :: iuReadGo rest seen from by
          simp [iuReadGo, hkey, hke]]
        have hskip : nonemptyIds (mkUserRow r :: iuReadGo rest seen) =
            nonemptyIds (iuReadGo rest seen) := by
          simp [nonemptyIds, List.filterMap_cons, htrim, hke]
        rw [hskip]
        exact ih seen
      · by_cases hmem : k ∈ seen
        · rw [show iuReadGo (r :: rest) seen = iuReadGo rest seen from by
            simp [iuReadGo, hkey, hke, hmem]]
          exact ih seen
        · rw [show iuReadGo (r :: rest) seen = mkUserRow r :: iuReadGo rest (k :: seen) from by
            simp [iuReadGo, hkey, hke, hmem]]
          have hcons : nonemptyIds (mkUserRow r :: iuReadGo rest (k :: seen)) =
              k :: nonemptyIds (iuReadGo rest (k :: seen)) := by
            simp [nonemptyIds, List.filterMap_cons, htrim, hke]
          rw [hcons]
          obtain ⟨hnd, hns⟩ := ih (k :: seen)
          refine ⟨List.nodup_cons.mpr
            ⟨fun hc => (hns k hc) (List.mem_cons_self k seen), hnd⟩, ?_⟩
          intro k2 hk2
          rcases List.mem_cons.mp hk2 with hceq | hk2'
          · rw [hceq]; exact hmem
          · exact fun hs => (hns k2 hk2') (List.mem_cons_of_mem _ hs)

lemma iuReadGo_find? : ∀ (rows : List UserRow) (seen : List String) (k : String),
    k ∉ seen →
      (iuReadGo rows seen).find? (fun u => u.user_id == k) =
        (rows.find? (fun r => iuKey r == some k)).map mkUserRow := by
  intro rows
  induction rows with
  | nil => intro seen k _; rfl
  | cons r rest ih =>
    intro seen k hk
    cases hkey : iuKey r with
    | none =>
      rw [List.find?_cons_of_neg _ (by simp [hkey]),
        show iuReadGo (r :: rest) seen = iuReadGo rest seen from by simp [iuReadGo, hkey]]
      exact ih seen k hk
    | some k2 =>
      have htrim : pyStripStr r.user_id = k2 := iuKey_eq_some hkey
      by_cases hkk : k2 = k
      · subst hkk
        have hcond : iuReadGo (r :: rest) seen =
            mkUserRow r :: iuReadGo rest (if k2 == "" then seen else k2 :: seen) := by
          by_cases hke : k2 = ""
          · simp [iuReadGo, hkey, hke]
          · simp [iuReadGo, hkey, hke, hk]
        rw [hcond, List.find?_cons_of_pos _ (by simp [htrim]),
          List.find?_cons_of_pos _ (by simp [hkey])]
        rfl
      · rw [List.find?_cons_of_neg _ (by simp [hkey, hkk])]
        by_cases hke : k2 = ""
        · rw [show iuReadGo (r :: rest) seen = mkUserRow r :: iuReadGo rest seen from by
            simp [iuReadGo, hkey, hke]]
          rw [List.find?_cons_of_neg _ (by simp [htrim, hkk])]
          exact ih seen k hk
        · by_cases hmem : k2 ∈ seen
          · rw [show iuReadGo (r :: rest) seen = iuReadGo rest seen from by
              simp [iuReadGo, hkey, hke, hmem]]
            exact ih seen k hk
          · rw [show iuReadGo (r :: rest) seen = mkUserRow r :: iuReadGo rest (k2 :: seen)
              from by simp [iuReadGo, hkey, hke, hmem]]
            rw [List.find?_cons_of_neg _ (by simp [htrim, hkk])]
            refine ih (k2 :: seen) k ?_
            intro hc
            rcases List.mem_cons.mp hc with hceq | hc2
            · exact hkk hceq.symm
            · exact hk hc2

/-- C7 (amended): deduplication of the loaded work-item lists.
`read_patient_csv` keeps exactly one entry per distinct normalized
phone and that entry is built from the first data row carrying that
phone; `read_users_from_csv` keeps exactly one entry per distinct
NONEMPTY `user_id` (again first occurrence wins, via `find?`), but rows
whose (stripped) `user_id` is empty are appended without any
deduplication — duplicate username-only rows each produce an entry,
which is the divergence from the claim exhibited by the
counterexample. -/
theorem csv_load_dedup (rows : List APRow) (rows2 : List UserRow) (k k2 : String) :
    ((read_patient_csv rows).map Patient.phone).Nodup ∧
    (read_patient_csv rows).find? (fun p => p.phone == k) =
      (rows.find? (fun r => apKey r == some k)).map (fun r => mkPatient r k) ∧
    (nonemptyIds (read_users_from_csv rows2)).Nodup ∧
    (read_users_from_csv rows2).find? (fun u => u.user_id == k2) =
      (rows2.find? (fun r => iuKey r == some k2)).map mkUserRow :=
  ⟨(apReadGo_nodup rows []).1,
   apReadGo_find? rows [] k (List.not_mem_nil k),
   (iuReadGo_nodup rows2 []).1,
   iuReadGo_find? rows2 [] k2 (List.not_mem_nil k2)⟩

/-- C7 counterexample: two rows with an empty `user_id` and the same
username `alice` — i.e. duplicate keys in the sense of the spec's
WorkItem key (phone, user id, or username) — are BOTH kept by
`read_users_from_csv`, so the loaded list does not contain exactly one
entry per distinct key. -/
theorem csv_load_dedup_counterexample :
    read_users_from_csv
        [⟨"", "alice", "f1", "l1"⟩, ⟨"", "alice", "f2", "l2"⟩] =
      [⟨"", "alice", "f1", "l1"⟩, ⟨"", "alice", "f2", "l2"⟩] ∧
    (read_users_from_csv
        [⟨"", "alice", "f1", "l1"⟩, ⟨"", "alice", "f2", "l2"⟩]).map UserRow.username =
      ["alice", "alice"] := by
  constructor
  · rfl
  · rfl

/-! ## Step equations for the per-item loops -/

lemma apRun_stop {cfg : RunConfig} {f : Patient → ItemResult} {p : Patient}
    {rest : List Patient} {count : Nat} (hlim : cfg.dailyLimit ≤ count) :
    apRun cfg f (p :: rest) count = [] := by
  simp [apRun, hlim]

lemma apRun_cons_dry {cfg : RunConfig} {f : Patient → ItemResult} {p : Patient}
    {rest : List Patient} {count : Nat} (hlim : ¬ cfg.dailyLimit ≤ count)
    (hdry : cfg.dryRun = true) :
    apRun cfg f (p :: rest) count =
      Event.attempt p.phone :: Event.write ⟨p.phone, "DryRun", "Simulated"⟩ ::
        Event.sleepFixedMs 500 :: apRun cfg f rest (count + 1) := by
  simp [apRun, hlim, hdry]

lemma apRun_cons_peerFlood {cfg : RunConfig} {f : Patient → ItemResult} {p : Patient}
    {rest : List Patient} {count : Nat} (hlim : ¬ cfg.dailyLimit ≤ count)
    (hdry : cfg.dryRun = false) (hf : f p = .peerFlood) :
    apRun cfg f (p :: rest) count =
      [Event.attempt p.phone, Event.invoke p.phone,
        Event.write ⟨p.phone, "Failed", "PeerFlood"⟩] := by
  simp [apRun, hlim, hdry, hf]

lemma apRun_cons_floodWait_big {cfg : RunConfig} {f : Patient → ItemResult} {p : Patient}
    {rest : List Patient} {count w : Nat} (hlim : ¬ cfg.dailyLimit ≤ count)
    (hdry : cfg.dryRun = false) (hf : f p = .floodWait w) (hw : 600 < w) :
    apRun cfg f (p :: rest) count =
      [Event.attempt p.phone, Event.invoke p.phone,
        Event.write ⟨p.phone, "Failed", "FloodWait_" ++ toString w ++ "s"⟩] := by
  simp [apRun, hlim, hdry, hf, hw]

lemma apRun_cons_floodWait_small {cfg : RunConfig} {f : Patient → ItemResult} {p : Patient}
    {rest : List Patient} {count w : Nat} (hlim : ¬ cfg.dailyLimit ≤ count)
    (hdry : cfg.dryRun = false) (hf : f p = .floodWait w) (hw : ¬ 600 < w) :
    apRun cfg f (p :: rest) count =
      Event.attempt p.phone :: Event.invoke p.phone :: Event.sleepWait w ::
        apRun cfg f rest count := by
  simp [apRun, hlim, hdry, hf, hw]

lemma apRun_cons_normal {cfg : RunConfig} {f : Patient → ItemResult} {p : Patient}
    {rest : List Patient} {count : Nat} {st rs : String} (hlim : ¬ cfg.dailyLimit ≤ count)
    (hdry : cfg.dryRun = false) (hf : f p = .normal st rs) :
    apRun cfg f (p :: rest) count =
      Event.attempt p.phone :: Event.invoke p.phone :: Event.write ⟨p.phone, st, rs⟩ ::
        (if ((if st == "Success" then count + 1 else count) < cfg.dailyLimit
              && !rest.isEmpty) then
          Event.sleepRand cfg.minDelay cfg.maxDelay ::
            apRun cfg f rest (if st == "Success" then count + 1 else count)
        else
          apRun cfg f rest (if st == "Success" then count + 1 else count)) := by
  simp only [apRun, if_neg hlim, hdry, Bool.false_eq_true, if_false, hf]

lemma dmRun_stop {cfg : RunConfig} {f : UserRow → ItemResult} {u : UserRow}
    {rest : List UserRow} {count : Nat} (hlim : cfg.dailyLimit ≤ count) :
    dmRun cfg f (u :: rest) count = [] := by
  simp [dmRun, hlim]

lemma dmRun_cons_dry {cfg : RunConfig} {f : UserRow → ItemResult} {u : UserRow}
    {rest : List UserRow} {count : Nat} (hlim : ¬ cfg.dailyLimit ≤ count)
    (hdry : cfg.dryRun = true) :
    dmRun cfg f (u :: rest) count =
      Event.attempt u.user_id :: Event.sleepFixedMs 1000 ::
        dmRun cfg f rest (count + 1) := by
  simp [dmRun, hlim, hdry]

lemma dmRun_cons_peerFlood {cfg : RunConfig} {f : UserRow → ItemResult} {u : UserRow}
    {rest : List UserRow} {count : Nat} (hlim : ¬ cfg.dailyLimit ≤ count)
    (hdry : cfg.dryRun = false) (hf : f u = .peerFlood) :
    dmRun cfg f (u :: rest) count =
      [Event.attempt u.user_id, Event.invoke u.user_id,
        Event.write ⟨u.user_id, "Failed", "PeerFlood"⟩] := by
  simp [dmRun, hlim, hdry, hf]

lemma dmRun_cons_floodWait {cfg : RunConfig} {f : UserRow → ItemResult} {u : UserRow}
    {rest : List UserRow} {count w : Nat} (hlim : ¬ cfg.dailyLimit ≤ count)
    (hdry : cfg.dryRun = false) (hf : f u = .floodWait w) :
    dmRun cfg f (u :: rest) count =
      [Event.attempt u.user_id, Event.invoke u.user_id] := by
  simp [dmRun, hlim, hdry, hf]

lemma dmRun_cons_normal {cfg : RunConfig} {f : UserRow → ItemResult} {u : UserRow}
    {rest : List UserRow} {count : Nat} {st rs : String} (hlim : ¬ cfg.dailyLimit ≤ count)
    (hdry : cfg.dryRun = false) (hf : f u = .normal st rs) :
    dmRun cfg f (u :: rest) count =
      Event.attempt u.user_id :: Event.invoke u.user_id ::
        Event.write ⟨u.user_id, st, rs⟩ ::
        (if (if st == "Success" then count + 1 else count) < cfg.dailyLimit then
          Event.sleepRand cfg.minDelay cfg.maxDelay ::
            dmRun cfg f rest (if st == "Success" then count + 1 else count)
        else
          dmRun cfg f rest (if st == "Success" then count + 1 else count)) := by
  simp only [dmRun, if_neg hlim, hdry, Bool.false_eq_true, if_false, hf]

/-! ## Records versus attempts -/

lemma apRun_writes_waits_attempts (cfg : RunConfig) (f : Patient → ItemResult) :
    ∀ (items : List Patient) (count : Nat),
      (apRun cfg f items count).countP isWrite +
          (apRun cfg f items count).countP isSleepWait =
        (apRun cfg f items count).countP isAttempt := by
  intro items
  induction items with
  | nil => intro count; simp [apRun]
  | cons p rest ih =>
    intro count
    by_cases hlim : cfg.dailyLimit ≤ count
    · rw [apRun_stop hlim]
      simp
    · by_cases hdry : cfg.dryRun = true
      · rw [apRun_cons_dry hlim hdry]
        have h := ih (count + 1)
        simp [List.countP_cons, isWrite, isSleepWait, isAttempt]
        omega
      · rw [Bool.not_eq_true] at hdry
        cases hf : f p with
        | peerFlood =>
          rw [apRun_cons_peerFlood hlim hdry hf]
          rfl
        | floodWait w =>
          by_cases hw : 600 < w
          · rw [apRun_cons_floodWait_big hlim hdry hf hw]
            rfl
          · rw [apRun_cons_floodWait_small hlim hdry hf hw]
            have h := ih count
            simp [List.countP_cons, isWrite, isSleepWait, isAttempt]
            omega
        | normal st rs =>
          rw [apRun_cons_normal hlim hdry hf]
          generalize (if st == "Success" then count + 1 else count) = c2
          have h := ih c2
          by_cases hcond : ((c2 < cfg.dailyLimit && !rest.isEmpty) = true)
          · rw [if_pos hcond]
            simp [List.countP_cons, isWrite, isSleepWait, isAttempt]
            omega
          · rw [if_neg hcond]
            simp [List.countP_cons, isWrite, isSleepWait, isAttempt]
            omega

lemma dmRun_writes_attempts (cfg : RunConfig) (f : UserRow → ItemResult)
    (hdry : cfg.dryRun = false) (hnofw : ∀ u w, f u ≠ .floodWait w) :
    ∀ (us : List UserRow) (count : Nat),
      (dmRun cfg f us count).countP isWrite = (dmRun cfg f us count).countP isAttempt := by
  intro us
  induction us with
  | nil => intro count; simp [dmRun]
  | cons u rest ih =>
    intro count
    by_cases hlim : cfg.dailyLimit ≤ count
    · rw [dmRun_stop hlim]
      simp
    · cases hf : f u with
      | peerFlood =>
        rw [dmRun_cons_peerFlood hlim hdry hf]
        rfl
      | floodWait w => exact absurd hf (hnofw u w)
      | normal st rs =>
        rw [dmRun_cons_normal hlim hdry hf]
        generalize (if st == "Success" then count + 1 else count) = c2
        have h := ih c2
        by_cases hcond : (c2 < cfg.dailyLimit)
        · rw [if_pos hcond]
          simp [List.countP_cons, isWrite, isAttempt]
          omega
        · rw [if_neg hcond]
          simp [List.countP_cons, isWrite, isAttempt]
          omega

lemma iuUserEvents_counts (f : UserRow → IuOutcome) (u : UserRow) :
    (iuUserEvents f u).countP isAttempt = 1 ∧ (iuUserEvents f u).countP isWrite = 0 := by
  unfold iuUserEvents
  cases f u <;>
    simp [List.countP_cons, List.countP_append, isAttempt, isWrite]

lemma iuBatchEvents_counts (f : UserRow → IuOutcome) : ∀ (batch : List UserRow),
    (iuBatchEvents f batch).countP isAttempt = batch.length ∧
      (iuBatchEvents f batch).countP isWrite = 0 := by
  intro batch
  induction batch with
  | nil => simp [iuBatchEvents]
  | cons u rest ih =>
    obtain ⟨h1, h2⟩ := iuUserEvents_counts f u
    simp only [iuBatchEvents, List.countP_append, h1, h2, ih.1, ih.2, List.length_cons]
    exact ⟨by omega, trivial⟩

lemma iuFlush_counts (f : UserRow → IuOutcome) : ∀ (batch : List UserRow),
    (iuFlush f batch).countP isWrite = batch.length ∧
      (iuFlush f batch).countP isAttempt = 0 := by
  intro batch
  induction batch with
  | nil => simp [iuFlush]
  | cons u rest ih =>
    simp [iuFlush, List.map_cons, List.countP_cons, List.length_cons, isWrite, isAttempt]
      at ih ⊢

lemma iuRun_writes_attempts_aux (f : UserRow → IuOutcome) (bs bd : Nat) :
    ∀ (n : Nat) (us : List UserRow), us.length ≤ n →
      (iuRun f bs bd us).countP isWrite = (iuRun f bs bd us).countP isAttempt := by
  intro n
  induction n with
  | zero =>
    intro us hus
    have husnil : us = [] := List.length_eq_zero.mp (Nat.le_zero.mp hus)
    subst husnil
    rw [iuRun]
    split <;> simp
  | succ n ih =>
    intro us hus
    rw [iuRun]
    by_cases hbs : bs = 0
    · rw [dif_pos hbs]
      rfl
    · rw [dif_neg hbs]
      by_cases husnil : us = []
      · rw [dif_pos husnil]
        rfl
      · rw [dif_neg husnil]
        obtain ⟨hb1, hb2⟩ := iuBatchEvents_counts f (us.take bs)
        obtain ⟨hf1, hf2⟩ := iuFlush_counts f (us.take bs)
        by_cases hdrop : us.drop bs = []
        · rw [if_pos hdrop]
          simp only [List.countP_append, hb1, hb2, hf1, hf2, List.countP_nil]
          omega
        · rw [if_neg hdrop]
          have hrec : (iuRun f bs bd (us.drop bs)).countP isWrite =
              (iuRun f bs bd (us.drop bs)).countP isAttempt := by
            refine ih (us.drop bs) ?_
            have h1 : 0 < us.length := List.length_pos.mpr husnil
            have h2 : (us.drop bs).length = us.length - bs := List.length_drop bs us
            have h3 : 1 ≤ bs := Nat.pos_of_ne_zero hbs
            omega
          simp [List.countP_append, List.countP_cons, hb1, hb2, hf1, hf2,
            isWrite, isAttempt]
          omega

lemma iuRun_writes_attempts (f : UserRow → IuOutcome) (bs bd : Nat) (us : List UserRow) :
    (iuRun f bs bd us).countP isWrite = (iuRun f bs bd us).countP isAttempt :=
  iuRun_writes_attempts_aux f bs bd us.length us (Nat.le_refl _)

lemma countP_ite_sleepRand (p : Event → Bool) (hp : ∀ lo hi, p (Event.sleepRand lo hi) = false)
    (c : Prop) [Decidable c] (lo hi : Nat) (t : List Event) :
    (if c then Event.sleepRand lo hi :: t else t).countP p = t.countP p := by
  split
  · simp [List.countP_cons, hp]
  · rfl

/-- C1 (amended): in `add_patients_to_channel.py` every attempted item
yields exactly one appended record EXCEPT items struck by a FloodWait
of at most 600 s, which yield a `sleepWait` and no record (writes +
FloodWait-continues = attempts); in `safe_dm_invite.py` writes equal
attempts provided the run is not a dry run and no FloodWait occurs
(dry-run items and the FloodWait stop item are attempted without any
record); in `invite_users_to_channel.py` writes equal attempts, but
records are flushed per batch after the per-item sleeps rather than
before them. -/
theorem records_equal_attempts (cfg cfg2 : RunConfig) (f : Patient → ItemResult)
    (g : UserRow → ItemResult) (f3 : UserRow → IuOutcome) (items : List Patient)
    (us us3 : List UserRow) (c c2 bs bd : Nat)
    (hdry : cfg2.dryRun = false) (hnofw : ∀ u w, g u ≠ ItemResult.floodWait w) :
    (apRun cfg f items c).countP isWrite + (apRun cfg f items c).countP isSleepWait =
      (apRun cfg f items c).countP isAttempt ∧
    (dmRun cfg2 g us c2).countP isWrite = (dmRun cfg2 g us c2).countP isAttempt ∧
    (iuRun f3 bs bd us3).countP isWrite = (iuRun f3 bs bd us3).countP isAttempt :=
  ⟨apRun_writes_waits_attempts cfg f items c,
   dmRun_writes_attempts cfg2 g hdry hnofw us c2,
   iuRun_writes_attempts f3 bs bd us3⟩

/-- Witness for `records_equal_attempts` at concrete runs. -/
theorem records_equal_attempts_witness :
    ((⟨35, 60, 300, false⟩ : RunConfig).dryRun = false ∧
      (∀ (u : UserRow) (w : Nat),
        (fun _ : UserRow => ItemResult.normal "Success" "Sent") u ≠
          ItemResult.floodWait w)) ∧
    ((apRun ⟨9999, 15, 45, false⟩ (fun _ => ItemResult.normal "Success" "Added")
          [⟨"c1", "n", "f", "l", "+251911111111"⟩] 0).countP isWrite +
        (apRun ⟨9999, 15, 45, false⟩ (fun _ => ItemResult.normal "Success" "Added")
          [⟨"c1", "n", "f", "l", "+251911111111"⟩] 0).countP isSleepWait =
      (apRun ⟨9999, 15, 45, false⟩ (fun _ => ItemResult.normal "Success" "Added")
          [⟨"c1", "n", "f", "l", "+251911111111"⟩] 0).countP isAttempt ∧
    (dmRun ⟨35, 60, 300, false⟩ (fun _ => ItemResult.normal "Success" "Sent")
          [⟨"1", "a", "f", "l"⟩] 0).countP isWrite =
      (dmRun ⟨35, 60, 300, false⟩ (fun _ => ItemResult.normal "Success" "Sent")
          [⟨"1", "a", "f", "l"⟩] 0).countP isAttempt ∧
    (iuRun (fun _ => IuOutcome.added) 10 5 [⟨"1", "a", "f", "l"⟩]).countP isWrite =
      (iuRun (fun _ => IuOutcome.added) 10 5 [⟨"1", "a", "f", "l"⟩]).countP isAttempt) :=
  ⟨⟨rfl, fun _ _ h => ItemResult.noConfusion h⟩,
    records_equal_attempts ⟨9999, 15, 45, false⟩ ⟨35, 60, 300, false⟩
      (fun _ => ItemResult.normal "Success" "Added")
      (fun _ => ItemResult.normal "Success" "Sent") (fun _ => IuOutcome.added)
      [⟨"c1", "n", "f", "l", "+251911111111"⟩] [⟨"1", "a", "f", "l"⟩]
      [⟨"1", "a", "f", "l"⟩] 0 0 10 5 rfl (fun _ _ h => ItemResult.noConfusion h)⟩

/-- C1 counterexample: in `add_patients_to_channel.py` an item hit by
`FloodWaitError` with `w = 30 ≤ 600` is attempted (1 attempt) but the
loop `continue`s without appending any record (0 writes), refuting
"exactly one ResultRecord per attempted item". -/
theorem records_equal_attempts_counterexample :
    (apRun ⟨9999, 15, 45, false⟩ (fun _ => ItemResult.floodWait 30)
        [⟨"c1", "n", "f", "l", "+251911111111"⟩] 0).countP isAttempt = 1 ∧
    (apRun ⟨9999, 15, 45, false⟩ (fun _ => ItemResult.floodWait 30)
        [⟨"c1", "n", "f", "l", "+251911111111"⟩] 0).countP isWrite = 0 :=
  ⟨rfl, rfl⟩

/-! ## Success counts versus the daily limit -/

lemma apRun_success_le (cfg : RunConfig) (f : Patient → ItemResult) :
    ∀ (items : List Patient) (count : Nat),
      (apRun cfg f items count).countP isSuccessWrite ≤ cfg.dailyLimit - count := by
  intro items
  induction items with
  | nil => intro count; simp [apRun]
  | cons p rest ih =>
    intro count
    by_cases hlim : cfg.dailyLimit ≤ count
    · rw [apRun_stop hlim]
      simp
    · by_cases hdry : cfg.dryRun = true
      · rw [apRun_cons_dry hlim hdry]
        have h := ih (count + 1)
        simp [List.countP_cons, isSuccessWrite]
        omega
      · rw [Bool.not_eq_true] at hdry
        cases hf : f p with
        | peerFlood =>
          rw [apRun_cons_peerFlood hlim hdry hf]
          simp [List.countP_cons, isSuccessWrite]
        | floodWait w =>
          by_cases hw : 600 < w
          · rw [apRun_cons_floodWait_big hlim hdry hf hw]
            simp [List.countP_cons, isSuccessWrite]
          · rw [apRun_cons_floodWait_small hlim hdry hf hw]
            have h := ih count
            simp [List.countP_cons, isSuccessWrite]
            omega
        | normal st rs =>
          rw [apRun_cons_normal hlim hdry hf]
          rw [List.countP_cons, List.countP_cons, List.countP_cons,
            countP_ite_sleepRand isSuccessWrite (fun _ _ => rfl)]
          by_cases hst : (st == "Success") = true
          · have hsteq : st = "Success" := beq_iff_eq.mp hst
            subst hsteq
            have h := ih (count + 1)
            simp [isSuccessWrite]
            omega
          · rw [Bool.not_eq_true] at hst
            have hne : ¬ st = "Success" := fun hh => by simp [hh] at hst
            have h := ih count
            simp [isSuccessWrite, hst, hne]
            omega

lemma dmRun_success_le (cfg : RunConfig) (f : UserRow → ItemResult) :
    ∀ (us : List UserRow) (count : Nat),
      (dmRun cfg f us count).countP isSuccessWrite ≤ cfg.dailyLimit - count := by
  intro us
  induction us with
  | nil => intro count; simp [dmRun]
  | cons u rest ih =>
    intro count
    by_cases hlim : cfg.dailyLimit ≤ count
    · rw [dmRun_stop hlim]
      simp
    · by_cases hdry : cfg.dryRun = true
      · rw [dmRun_cons_dry hlim hdry]
        have h := ih (count + 1)
        simp [List.countP_cons, isSuccessWrite]
        omega
      · rw [Bool.not_eq_true] at hdry
        cases hf : f u with
        | peerFlood =>
          rw [dmRun_cons_peerFlood hlim hdry hf]
          simp [List.countP_cons, isSuccessWrite]
        | floodWait w =>
          rw [dmRun_cons_floodWait hlim hdry hf]
          simp [List.countP_cons, isSuccessWrite]
        | normal st rs =>
          rw [dmRun_cons_normal hlim hdry hf]
          rw [List.countP_cons, List.countP_cons, List.countP_cons,
            countP_ite_sleepRand isSuccessWrite (fun _ _ => rfl)]
          by_cases hst : (st == "Success") = true
          · have hsteq : st = "Success" := beq_iff_eq.mp hst
            subst hsteq
            have h := ih (count + 1)
            simp [isSuccessWrite]
            omega
          · rw [Bool.not_eq_true] at hst
            have hne : ¬ st = "Success" := fun hh => by simp [hh] at hst
            have h := ih count
            simp [isSuccessWrite, hst, hne]
            omega

lemma apRun_attempts_all_success (cfg : RunConfig) (f : Patient → ItemResult)
    (hdry : cfg.dryRun = false) (hsucc : ∀ p, f p = .normal "Success" "Added") :
    ∀ (items : List Patient) (count : Nat), count ≤ cfg.dailyLimit →
      cfg.dailyLimit - count < items.length →
      (apRun cfg f items count).countP isAttempt = cfg.dailyLimit - count := by
  intro items
  induction items with
  | nil =>
    intro count h1 h2
    simp at h2
  | cons p rest ih =>
    intro count h1 h2
    by_cases hlim : cfg.dailyLimit ≤ count
    · rw [apRun_stop hlim]
      have : cfg.dailyLimit = count := Nat.le_antisymm hlim h1
      simp [this]
    · rw [apRun_cons_normal hlim hdry (hsucc p)]
      rw [List.countP_cons, List.countP_cons, List.countP_cons,
        countP_ite_sleepRand isAttempt (fun _ _ => rfl)]
      have h := ih (count + 1) (by omega) (by
        simp only [List.length_cons] at h2
        omega)
      simp only [show (("Success" : String) == "Success") = true from rfl, if_true] at *
      simp [isAttempt]
      omega

/-- C3: with `DAILY_LIMIT = N` and more than `N` remaining candidates,
a run of `add_patients_to_channel.py` or `safe_dm_invite.py` writes at
most `N` `Success` records (the running `count` is checked against the
limit at the top of every iteration and only `Success`/dry-run items
increment it), and when every attempt succeeds, exactly `N` items are
attempted — the loop breaks before attempting candidate `N + 1`.
`invite_users_to_channel.py` has no daily-limit configuration, so the
claim is vacuous for it. -/
theorem daily_limit_enforced (cfg cfg2 : RunConfig) (f : Patient → ItemResult)
    (g : UserRow → ItemResult) (items : List Patient) (us : List UserRow)
    (hM : cfg.dailyLimit < items.length)
    (hdry : cfg.dryRun = false)
    (hsucc : ∀ p, f p = ItemResult.normal "Success" "Added") :
    (apRun cfg f items 0).countP isSuccessWrite ≤ cfg.dailyLimit ∧
    (dmRun cfg2 g us 0).countP isSuccessWrite ≤ cfg2.dailyLimit ∧
    (apRun cfg f items 0).countP isAttempt = cfg.dailyLimit := by
  refine ⟨?_, ?_, ?_⟩
  · have h := apRun_success_le cfg f items 0
    simpa using h
  · have h := dmRun_success_le cfg2 g us 0
    simpa using h
  · have h := apRun_attempts_all_success cfg f hdry hsucc items 0 (Nat.zero_le _)
      (by simpa using hM)
    simpa using h

/-- Witness for `daily_limit_enforced`: limit 2, three all-success
candidates — two Success records, two attempts. -/
theorem daily_limit_enforced_witness :
    ((⟨2, 15, 45, false⟩ : RunConfig).dailyLimit <
        ([⟨"c1", "n", "f", "l", "+2519a"⟩, ⟨"c2", "n", "f", "l", "+2519b"⟩,
          ⟨"c3", "n", "f", "l", "+2519c"⟩] : List Patient).length ∧
      (⟨2, 15, 45, false⟩ : RunConfig).dryRun = false ∧
      (∀ p : Patient, (fun _ : Patient => ItemResult.normal "Success" "Added") p =
        ItemResult.normal "Success" "Added")) ∧
    ((apRun ⟨2, 15, 45, false⟩ (fun _ => ItemResult.normal "Success" "Added")
        [⟨"c1", "n", "f", "l", "+2519a"⟩, ⟨"c2", "n", "f", "l", "+2519b"⟩,
          ⟨"c3", "n", "f", "l", "+2519c"⟩] 0).countP isSuccessWrite ≤ 2 ∧
      (dmRun ⟨35, 60, 300, false⟩ (fun _ => ItemResult.normal "Success" "Sent")
        [⟨"1", "a", "f", "l"⟩] 0).countP isSuccessWrite ≤ 35 ∧
      (apRun ⟨2, 15, 45, false⟩ (fun _ => ItemResult.normal "Success" "Added")
        [⟨"c1", "n", "f", "l", "+2519a"⟩, ⟨"c2", "n", "f", "l", "+2519b"⟩,
          ⟨"c3", "n", "f", "l", "+2519c"⟩] 0).countP isAttempt = 2) :=
  ⟨⟨by decide, rfl, fun _ => rfl⟩,
    daily_limit_enforced ⟨2, 15, 45, false⟩ ⟨35, 60, 300, false⟩
      (fun _ => ItemResult.normal "Success" "Added")
      (fun _ => ItemResult.normal "Success" "Sent")
      [⟨"c1", "n", "f", "l", "+2519a"⟩, ⟨"c2", "n", "f", "l", "+2519b"⟩,
        ⟨"c3", "n", "f", "l", "+2519c"⟩] [⟨"1", "a", "f", "l"⟩]
      (by decide) rfl (fun _ => rfl)⟩

/-! ## Throttle handling -/

/-- C4 (amended): in `add_patients_to_channel.py` and
`safe_dm_invite.py`, `PeerFloodError` on the current item makes the run
log exactly one `Failed/PeerFlood` record for that item and stop
immediately: the remainder of the run from that item onward is exactly
the attempt, the remote invocation, and that single record — no event
for any later item.  `invite_users_to_channel.py`, however, catches
`PeerFloodError` inside `add_user_to_channel` and treats it as an
ordinary per-item failure, continuing with the remaining items (see the
counterexample). -/
theorem peerflood_stops_run (cfg cfg2 : RunConfig) (f : Patient → ItemResult)
    (g : UserRow → ItemResult) (p : Patient) (rest : List Patient) (u : UserRow)
    (rest2 : List UserRow) (c c2 : Nat)
    (hlim : ¬ cfg.dailyLimit ≤ c) (hdry : cfg.dryRun = false)
    (hf : f p = ItemResult.peerFlood)
    (hlim2 : ¬ cfg2.dailyLimit ≤ c2) (hdry2 : cfg2.dryRun = false)
    (hg : g u = ItemResult.peerFlood) :
    apRun cfg f (p :: rest) c =
      [Event.attempt p.phone, Event.invoke p.phone,
        Event.write ⟨p.phone, "Failed", "PeerFlood"⟩] ∧
    dmRun cfg2 g (u :: rest2) c2 =
      [Event.attempt u.user_id, Event.invoke u.user_id,
        Event.write ⟨u.user_id, "Failed", "PeerFlood"⟩] :=
  ⟨apRun_cons_peerFlood hlim hdry hf, dmRun_cons_peerFlood hlim2 hdry2 hg⟩

/-- Witness for `peerflood_stops_run` at a concrete state. -/
theorem peerflood_stops_run_witness :
    ((¬ (9999 : Nat) ≤ 0) ∧ (¬ (35 : Nat) ≤ 0)) ∧
    (apRun ⟨9999, 15, 45, false⟩ (fun _ => ItemResult.peerFlood)
        [⟨"c1", "n", "f", "l", "+2519a"⟩, ⟨"c2", "n", "f", "l", "+2519b"⟩] 0 =
      [Event.attempt "+2519a", Event.invoke "+2519a",
        Event.write ⟨"+2519a", "Failed", "PeerFlood"⟩] ∧
    dmRun ⟨35, 60, 300, false⟩ (fun _ => ItemResult.peerFlood)
        [⟨"1", "a", "f", "l"⟩, ⟨"2", "b", "f", "l"⟩] 0 =
      [Event.attempt "1", Event.invoke "1",
        Event.write ⟨"1", "Failed", "PeerFlood"⟩]) :=
  ⟨⟨by decide, by decide⟩,
    peerflood_stops_run ⟨9999, 15, 45, false⟩ ⟨35, 60, 300, false⟩
      (fun _ => ItemResult.peerFlood) (fun _ => ItemResult.peerFlood)
      ⟨"c1", "n", "f", "l", "+2519a"⟩ [⟨"c2", "n", "f", "l", "+2519b"⟩]
      ⟨"1", "a", "f", "l"⟩ [⟨"2", "b", "f", "l"⟩] 0 0
      (by decide) rfl rfl (by decide) rfl rfl⟩

/-- C4 counterexample: `invite_users_to_channel.py` with a PeerFlood on
item `1` of two still writes a record for item `2` and attempts both
items — the run does not stop. -/
theorem peerflood_stops_run_counterexample :
    Event.write ⟨"1", "Failed", "PeerFlood"⟩ ∈
      iuRun (fun u => if u.user_id == "1" then IuOutcome.failed "PeerFlood"
        else IuOutcome.added) 10 5 [⟨"1", "a", "f", "l"⟩, ⟨"2", "b", "f", "l"⟩] ∧
    Event.write ⟨"2", "Success", "Success"⟩ ∈
      iuRun (fun u => if u.user_id == "1" then IuOutcome.failed "PeerFlood"
        else IuOutcome.added) 10 5 [⟨"1", "a", "f", "l"⟩, ⟨"2", "b", "f", "l"⟩] ∧
    (iuRun (fun u => if u.user_id == "1" then IuOutcome.failed "PeerFlood"
        else IuOutcome.added) 10 5
          [⟨"1", "a", "f", "l"⟩, ⟨"2", "b", "f", "l"⟩]).countP isAttempt = 2 := by
  rw [iuRun]
  rw [dif_neg (by decide), dif_neg (by decide), if_pos (by decide)]
  decide

/-- C5 (amended): FloodWait handling differs per script.
`add_patients_to_channel.py` implements the claim: for `w > 600` it
records `Failed/FloodWait_<w>s` and stops; for `w ≤ 600` it sleeps `w`
seconds and advances to the next item (without a record).
`safe_dm_invite.py` stops the whole run on ANY FloodWait, without a
record and without sleeping (counterexample).
`invite_users_to_channel.py` records `Failed/FloodWait_<w>s`, sleeps
`w`, and continues for every `w`, with no 600-second ceiling. -/
theorem floodwait_handling (cfg cfg2 : RunConfig) (f : Patient → ItemResult)
    (g : UserRow → ItemResult) (f3 : UserRow → IuOutcome) (p : Patient)
    (rest : List Patient) (u u3 : UserRow) (rest2 : List UserRow) (c c2 w w2 w3 : Nat)
    (hlim : ¬ cfg.dailyLimit ≤ c) (hdry : cfg.dryRun = false)
    (hf : f p = ItemResult.floodWait w)
    (hlim2 : ¬ cfg2.dailyLimit ≤ c2) (hdry2 : cfg2.dryRun = false)
    (hg : g u = ItemResult.floodWait w2)
    (hf3 : f3 u3 = IuOutcome.floodWait w3) :
    (600 < w → apRun cfg f (p :: rest) c =
      [Event.attempt p.phone, Event.invoke p.phone,
        Event.write ⟨p.phone, "Failed", "FloodWait_" ++ toString w ++ "s"⟩]) ∧
    (¬ 600 < w → apRun cfg f (p :: rest) c =
      Event.attempt p.phone :: Event.invoke p.phone :: Event.sleepWait w ::
        apRun cfg f rest c) ∧
    dmRun cfg2 g (u :: rest2) c2 = [Event.attempt u.user_id, Event.invoke u.user_id] ∧
    iuRecord f3 u3 = ⟨u3.user_id, "Failed", "FloodWait_" ++ toString w3 ++ "s"⟩ ∧
    Event.sleepWait w3 ∈ iuUserEvents f3 u3 := by
  refine ⟨fun hw => apRun_cons_floodWait_big hlim hdry hf hw,
    fun hw => apRun_cons_floodWait_small hlim hdry hf hw,
    dmRun_cons_floodWait hlim2 hdry2 hg, ?_, ?_⟩
  · simp [iuRecord, hf3]
  · simp [iuUserEvents, hf3]

/-- Witness for `floodwait_handling` at concrete states (FloodWait 700
for the add_patients item, 30 for the safe_dm item, 700 for the
invite_users item). -/
theorem floodwait_handling_witness :
    ((¬ (9999 : Nat) ≤ 0) ∧ (¬ (35 : Nat) ≤ 0)) ∧
    ((600 < 700 → apRun ⟨9999, 15, 45, false⟩ (fun _ => ItemResult.floodWait 700)
        [⟨"c1", "n", "f", "l", "+2519a"⟩, ⟨"c2", "n", "f", "l", "+2519b"⟩] 0 =
      [Event.attempt "+2519a", Event.invoke "+2519a",
        Event.write ⟨"+2519a", "Failed", "FloodWait_" ++ toString (700 : Nat) ++ "s"⟩]) ∧
    (¬ 600 < 700 → apRun ⟨9999, 15, 45, false⟩ (fun _ => ItemResult.floodWait 700)
        [⟨"c1", "n", "f", "l", "+2519a"⟩, ⟨"c2", "n", "f", "l", "+2519b"⟩] 0 =
      Event.attempt "+2519a" :: Event.invoke "+2519a" :: Event.sleepWait 700 ::
        apRun ⟨9999, 15, 45, false⟩ (fun _ => ItemResult.floodWait 700)
          [⟨"c2", "n", "f", "l", "+2519b"⟩] 0) ∧
    dmRun ⟨35, 60, 300, false⟩ (fun _ => ItemResult.floodWait 30)
        [⟨"1", "a", "f", "l"⟩, ⟨"2", "b", "f", "l"⟩] 0 =
      [Event.attempt "1", Event.invoke "1"] ∧
    iuRecord (fun _ => IuOutcome.floodWait 700) ⟨"3", "c", "f", "l"⟩ =
      ⟨"3", "Failed", "FloodWait_" ++ toString (700 : Nat) ++ "s"⟩ ∧
    Event.sleepWait 700 ∈ iuUserEvents (fun _ => IuOutcome.floodWait 700)
      ⟨"3", "c", "f", "l"⟩) :=
  ⟨⟨by decide, by decide⟩,
    floodwait_handling ⟨9999, 15, 45, false⟩ ⟨35, 60, 300, false⟩
      (fun _ => ItemResult.floodWait 700) (fun _ => ItemResult.floodWait 30)
      (fun _ => IuOutcome.floodWait 700)
      ⟨"c1", "n", "f", "l", "+2519a"⟩ [⟨"c2", "n", "f", "l", "+2519b"⟩]
      ⟨"1", "a", "f", "l"⟩ ⟨"3", "c", "f", "l"⟩ [⟨"2", "b", "f", "l"⟩]
      0 0 700 30 700 (by decide) rfl rfl (by decide) rfl rfl rfl⟩

/-- C5 counterexample: `safe_dm_invite.py` on a FloodWait of 30 s
(below the 600 s ceiling) on item `1` of two: the run stops after the
attempt — it neither sleeps 30 s nor advances to item `2`, refuting
"suspends exactly w seconds and then advances to item k+1". -/
theorem floodwait_handling_counterexample :
    dmRun ⟨35, 60, 300, false⟩
        (fun u => if u.user_id == "1" then ItemResult.floodWait 30
          else ItemResult.normal "Success" "Sent")
        [⟨"1", "a", "f", "l"⟩, ⟨"2", "b", "f", "l"⟩] 0 =
      [Event.attempt "1", Event.invoke "1"] ∧
    (dmRun ⟨35, 60, 300, false⟩
        (fun u => if u.user_id == "1" then ItemResult.floodWait 30
          else ItemResult.normal "Success" "Sent")
        [⟨"1", "a", "f", "l"⟩, ⟨"2", "b", "f", "l"⟩] 0).countP isAttempt = 1 ∧
    (dmRun ⟨35, 60, 300, false⟩
        (fun u => if u.user_id == "1" then ItemResult.floodWait 30
          else ItemResult.normal "Success" "Sent")
        [⟨"1", "a", "f", "l"⟩, ⟨"2", "b", "f", "l"⟩] 0).countP isSleepWait = 0 := by
  refine ⟨?_, ?_, ?_⟩ <;> decide

/-! ## Dry-run behavior -/

lemma apRun_dry (cfg : RunConfig) (f : Patient → ItemResult) (hdry : cfg.dryRun = true) :
    ∀ (items : List Patient) (count : Nat),
      (apRun cfg f items count).countP isWrite =
          min items.length (cfg.dailyLimit - count) ∧
        (apRun cfg f items count).all (writeStatusIs "DryRun") = true ∧
        (apRun cfg f items count).countP isInvoke = 0 := by
  intro items
  induction items with
  | nil => intro count; simp [apRun]
  | cons p rest ih =>
    intro count
    by_cases hlim : cfg.dailyLimit ≤ count
    · rw [apRun_stop hlim]
      have hz : cfg.dailyLimit - count = 0 := Nat.sub_eq_zero_of_le hlim
      simp [hz]
    · rw [apRun_cons_dry hlim hdry]
      obtain ⟨h1, h2, h3⟩ := ih (count + 1)
      refine ⟨?_, ?_, ?_⟩
      · simp only [List.countP_cons, h1, List.length_cons]
        simp [isWrite]
        omega
      · simp [List.all_cons, writeStatusIs, h2]
      · simp only [List.countP_cons, h3]
        simp [isInvoke]

lemma dmRun_dry (cfg : RunConfig) (f : UserRow → ItemResult) (hdry : cfg.dryRun = true) :
    ∀ (us : List UserRow) (count : Nat),
      (dmRun cfg f us count).countP isWrite = 0 ∧
        (dmRun cfg f us count).countP isInvoke = 0 := by
  intro us
  induction us with
  | nil => intro count; simp [dmRun]
  | cons u rest ih =>
    intro count
    by_cases hlim : cfg.dailyLimit ≤ count
    · rw [dmRun_stop hlim]
      simp
    · rw [dmRun_cons_dry hlim hdry]
      obtain ⟨h1, h2⟩ := ih (count + 1)
      constructor
      · simp only [List.countP_cons, h1]
        simp [isWrite]
      · simp only [List.countP_cons, h2]
        simp [isInvoke]

/-- C6 (amended): with `--dry-run`, neither script invokes any remote
action capability.  `add_patients_to_channel.py` writes exactly one
record per processed item (up to the daily limit), all with status
`DryRun`.  `safe_dm_invite.py`'s dry-run branch `continue`s BEFORE the
`write_result` call, so it writes no records at all (counterexample:
the claim's "one per item processed" fails there). -/
theorem dry_run_behavior (cfg cfg2 : RunConfig) (f : Patient → ItemResult)
    (g : UserRow → ItemResult) (items : List Patient) (us : List UserRow)
    (hdry : cfg.dryRun = true) (hdry2 : cfg2.dryRun = true) :
    (apRun cfg f items 0).all (writeStatusIs "DryRun") = true ∧
    (apRun cfg f items 0).countP isInvoke = 0 ∧
    (apRun cfg f items 0).countP isWrite = min items.length cfg.dailyLimit ∧
    (dmRun cfg2 g us 0).countP isWrite = 0 ∧
    (dmRun cfg2 g us 0).countP isInvoke = 0 := by
  obtain ⟨h1, h2, h3⟩ := apRun_dry cfg f hdry items 0
  obtain ⟨h4, h5⟩ := dmRun_dry cfg2 g hdry2 us 0
  exact ⟨h2, h3, by simpa using h1, h4, h5⟩

/-- Witness for `dry_run_behavior` at concrete dry runs. -/
theorem dry_run_behavior_witness :
    ((⟨9999, 15, 45, true⟩ : RunConfig).dryRun = true ∧
      (⟨35, 60, 300, true⟩ : RunConfig).dryRun = true) ∧
    ((apRun ⟨9999, 15, 45, true⟩ (fun _ => ItemResult.normal "Success" "Added")
        [⟨"c1", "n", "f", "l", "+2519a"⟩] 0).all (writeStatusIs "DryRun") = true ∧
    (apRun ⟨9999, 15, 45, true⟩ (fun _ => ItemResult.normal "Success" "Added")
        [⟨"c1", "n", "f", "l", "+2519a"⟩] 0).countP isInvoke = 0 ∧
    (apRun ⟨9999, 15, 45, true⟩ (fun _ => ItemResult.normal "Success" "Added")
        [⟨"c1", "n", "f", "l", "+2519a"⟩] 0).countP isWrite =
      min ([⟨"c1", "n", "f", "l", "+2519a"⟩] : List Patient).length 9999 ∧
    (dmRun ⟨35, 60, 300, true⟩ (fun _ => ItemResult.normal "Success" "Sent")
        [⟨"1", "a", "f", "l"⟩] 0).countP isWrite = 0 ∧
    (dmRun ⟨35, 60, 300, true⟩ (fun _ => ItemResult.normal "Success" "Sent")
        [⟨"1", "a", "f", "l"⟩] 0).countP isInvoke = 0) :=
  ⟨⟨rfl, rfl⟩,
    dry_run_behavior ⟨9999, 15, 45, true⟩ ⟨35, 60, 300, true⟩
      (fun _ => ItemResult.normal "Success" "Added")
      (fun _ => ItemResult.normal "Success" "Sent")
      [⟨"c1", "n", "f", "l", "+2519a"⟩] [⟨"1", "a", "f", "l"⟩] rfl rfl⟩

/-- C6 counterexample: a `safe_dm_invite.py` dry run over one item
attempts the item but writes zero records, refuting "one DryRun record
per item processed". -/
theorem dry_run_behavior_counterexample :
    (dmRun ⟨35, 60, 300, true⟩ (fun _ => ItemResult.normal "Success" "Sent")
        [⟨"1", "a", "f", "l"⟩] 0).countP isAttempt = 1 ∧
    (dmRun ⟨35, 60, 300, true⟩ (fun _ => ItemResult.normal "Success" "Sent")
        [⟨"1", "a", "f", "l"⟩] 0).countP isWrite = 0 :=
  ⟨rfl, rfl⟩

/-! ## Inter-item sleeps -/

lemma srfOk_attempt (lo hi : Nat) (k : String) (es : List Event) :
    sleepRandFollowedOk lo hi (Event.attempt k :: es) = sleepRandFollowedOk lo hi es := rfl

lemma srfOk_invoke (lo hi : Nat) (k : String) (es : List Event) :
    sleepRandFollowedOk lo hi (Event.invoke k :: es) = sleepRandFollowedOk lo hi es := rfl

lemma srfOk_write (lo hi : Nat) (r : Record) (es : List Event) :
    sleepRandFollowedOk lo hi (Event.write r :: es) = sleepRandFollowedOk lo hi es := rfl

lemma srfOk_fixed (lo hi ms : Nat) (es : List Event) :
    sleepRandFollowedOk lo hi (Event.sleepFixedMs ms :: es) =
      sleepRandFollowedOk lo hi es := rfl

lemma srfOk_wait (lo hi w : Nat) (es : List Event) :
    sleepRandFollowedOk lo hi (Event.sleepWait w :: es) = sleepRandFollowedOk lo hi es := rfl

lemma srbOk_attempt (lo hi : Nat) (k : String) (es : List Event) :
    sleepRandBoundsOk lo hi (Event.attempt k :: es) = sleepRandBoundsOk lo hi es := rfl

lemma srbOk_invoke (lo hi : Nat) (k : String) (es : List Event) :
    sleepRandBoundsOk lo hi (Event.invoke k :: es) = sleepRandBoundsOk lo hi es := rfl

lemma srbOk_write (lo hi : Nat) (r : Record) (es : List Event) :
    sleepRandBoundsOk lo hi (Event.write r :: es) = sleepRandBoundsOk lo hi es := rfl

lemma srbOk_fixed (lo hi ms : Nat) (es : List Event) :
    sleepRandBoundsOk lo hi (Event.sleepFixedMs ms :: es) =
      sleepRandBoundsOk lo hi es := rfl

lemma apRun_head_attempt {cfg : RunConfig} {f : Patient → ItemResult} {q : Patient}
    {rest : List Patient} {count : Nat} (hlim : ¬ cfg.dailyLimit ≤ count) :
    (apRun cfg f (q :: rest) count).head? = some (Event.attempt q.phone) := by
  simp [apRun, hlim]

lemma apRun_sleepRandFollowedOk (cfg : RunConfig) (f : Patient → ItemResult) :
    ∀ (items : List Patient) (count : Nat),
      sleepRandFollowedOk cfg.minDelay cfg.maxDelay (apRun cfg f items count) = true := by
  intro items
  induction items with
  | nil => intro count; rfl
  | cons p rest ih =>
    intro count
    by_cases hlim : cfg.dailyLimit ≤ count
    · rw [apRun_stop hlim]
      rfl
    · by_cases hdry : cfg.dryRun = true
      · rw [apRun_cons_dry hlim hdry, srfOk_attempt, srfOk_write, srfOk_fixed]
        exact ih (count + 1)
      · rw [Bool.not_eq_true] at hdry
        cases hf : f p with
        | peerFlood =>
          rw [apRun_cons_peerFlood hlim hdry hf]
          rfl
        | floodWait w =>
          by_cases hw : 600 < w
          · rw [apRun_cons_floodWait_big hlim hdry hf hw]
            rfl
          · rw [apRun_cons_floodWait_small hlim hdry hf hw, srfOk_attempt, srfOk_invoke,
              srfOk_wait]
            exact ih count
        | normal st rs =>
          rw [apRun_cons_normal hlim hdry hf]
          generalize (if st == "Success" then count + 1 else count) = c2
          rw [srfOk_attempt, srfOk_invoke, srfOk_write]
          by_cases hcond : ((decide (c2 < cfg.dailyLimit) && !rest.isEmpty) = true)
          · rw [if_pos hcond]
            obtain ⟨hc2, hrest⟩ := Bool.and_eq_true_iff.mp hcond
            have hlim2 : ¬ cfg.dailyLimit ≤ c2 :=
              Nat.not_le.mpr (of_decide_eq_true hc2)
            cases rest with
            | nil => simp at hrest
            | cons q rest2 =>
              have hih := ih c2
              have hhead := @apRun_head_attempt cfg f q rest2 c2 hlim2
              cases happ : apRun cfg f (q :: rest2) c2 with
              | nil => rw [happ] at hhead; cases hhead
              | cons e t =>
                rw [happ] at hhead hih
                have he : e = Event.attempt q.phone := by
                  simpa using hhead
                subst he
                rw [srfOk_attempt] at hih
                simp [sleepRandFollowedOk, hih]
          · rw [if_neg hcond]
            exact ih c2

lemma dmRun_sleepRandBoundsOk (cfg : RunConfig) (f : UserRow → ItemResult) :
    ∀ (us : List UserRow) (count : Nat),
      sleepRandBoundsOk cfg.minDelay cfg.maxDelay (dmRun cfg f us count) = true := by
  intro us
  induction us with
  | nil => intro count; rfl
  | cons u rest ih =>
    intro count
    by_cases hlim : cfg.dailyLimit ≤ count
    · rw [dmRun_stop hlim]
      rfl
    · by_cases hdry : cfg.dryRun = true
      · rw [dmRun_cons_dry hlim hdry, srbOk_attempt, srbOk_fixed]
        exact ih (count + 1)
      · rw [Bool.not_eq_true] at hdry
        cases hf : f u with
        | peerFlood =>
          rw [dmRun_cons_peerFlood hlim hdry hf]
          rfl
        | floodWait w =>
          rw [dmRun_cons_floodWait hlim hdry hf]
          rfl
        | normal st rs =>
          rw [dmRun_cons_normal hlim hdry hf]
          generalize (if st == "Success" then count + 1 else count) = c2
          rw [srbOk_attempt, srbOk_invoke, srbOk_write]
          by_cases hcond : (c2 < cfg.dailyLimit)
          · rw [if_pos hcond]
            have hih := ih c2
            simp [sleepRandBoundsOk, hih]
          · rw [if_neg hcond]
            exact ih c2

/-- C9 (amended): every inter-item sleep of both scripts is
`random.randint(minDelay, maxDelay)` — i.e. drawn from the configured
closed interval.  In `add_patients_to_channel.py` every such sleep is
immediately followed by the next item's attempt, so the trace never
ends in an inter-item sleep (no sleep after the last item or after a
stop); in `safe_dm_invite.py` the sleep happens whenever the running
count is below the daily limit, INCLUDING after the last item
(counterexample), and dry-run items of both scripts use a short fixed
sleep instead of the randomized one. -/
theorem inter_item_sleep (cfg cfg2 : RunConfig) (f : Patient → ItemResult)
    (g : UserRow → ItemResult) (items : List Patient) (us : List UserRow) (c c2 : Nat) :
    sleepRandFollowedOk cfg.minDelay cfg.maxDelay (apRun cfg f items c) = true ∧
    sleepRandBoundsOk cfg2.minDelay cfg2.maxDelay (dmRun cfg2 g us c2) = true :=
  ⟨apRun_sleepRandFollowedOk cfg f items c, dmRun_sleepRandBoundsOk cfg2 g us c2⟩

/-- C9 counterexample: a `safe_dm_invite.py` run over a single item
ends with the randomized inter-item sleep — the sleep happens after
the LAST item, refuting "performs no such inter-item sleep after the
last item". -/
theorem inter_item_sleep_counterexample :
    (dmRun ⟨35, 60, 300, false⟩ (fun _ => ItemResult.normal "Success" "Sent")
        [⟨"1", "a", "f", "l"⟩] 0).getLast? = some (Event.sleepRand 60 300) ∧
    sleepRandFollowedOk 60 300 (dmRun ⟨35, 60, 300, false⟩
        (fun _ => ItemResult.normal "Success" "Sent") [⟨"1", "a", "f", "l"⟩] 0) = false :=
  ⟨rfl, rfl⟩

/-! ## Resume filtering -/

lemma apRun_attempt_mem (cfg : RunConfig) (f : Patient → ItemResult) :
    ∀ (items : List Patient) (count : Nat) (k : String),
      Event.attempt k ∈ apRun cfg f items count → k ∈ items.map Patient.phone := by
  intro items
  induction items with
  | nil => intro count k h; simp [apRun] at h
  | cons p rest ih =>
    intro count k h
    by_cases hlim : cfg.dailyLimit ≤ count
    · rw [apRun_stop hlim] at h
      cases h
    · simp only [List.map_cons, List.mem_cons]
      by_cases hdry : cfg.dryRun = true
      · rw [apRun_cons_dry hlim hdry] at h
        simp only [List.mem_cons] at h
        rcases h with h | h | h | h
        · exact Or.inl (by cases h; rfl)
        · cases h
        · cases h
        · exact Or.inr (ih (count + 1) k h)
      · rw [Bool.not_eq_true] at hdry
        cases hf : f p with
        | peerFlood =>
          rw [apRun_cons_peerFlood hlim hdry hf] at h
          simp only [List.mem_cons, List.not_mem_nil, or_false] at h
          rcases h with h | h | h
          · exact Or.inl (by cases h; rfl)
          · cases h
          · cases h
        | floodWait w =>
          by_cases hw : 600 < w
          · rw [apRun_cons_floodWait_big hlim hdry hf hw] at h
            simp only [List.mem_cons, List.not_mem_nil, or_false] at h
            rcases h with h | h | h
            · exact Or.inl (by cases h; rfl)
            · cases h
            · cases h
          · rw [apRun_cons_floodWait_small hlim hdry hf hw] at h
            simp only [List.mem_cons] at h
            rcases h with h | h | h | h
            · exact Or.inl (by cases h; rfl)
            · cases h
            · cases h
            · exact Or.inr (ih count k h)
        | normal st rs =>
          rw [apRun_cons_normal hlim hdry hf] at h
          generalize (if st == "Success" then count + 1 else count) = c2 at h
          simp only [List.mem_cons] at h
          rcases h with h | h | h | h
          · exact Or.inl (by cases h; rfl)
          · cases h
          · cases h
          · by_cases hcond : ((decide (c2 < cfg.dailyLimit) && !rest.isEmpty) = true)
            · rw [if_pos hcond] at h
              simp only [List.mem_cons] at h
              rcases h with h | h
              · cases h
              · exact Or.inr (ih c2 k h)
            · rw [if_neg hcond] at h
              exact Or.inr (ih c2 k h)

lemma dmRun_attempt_mem (cfg : RunConfig) (f : UserRow → ItemResult) :
    ∀ (us : List UserRow) (count : Nat) (k : String),
      Event.attempt k ∈ dmRun cfg f us count → k ∈ us.map UserRow.user_id := by
  intro us
  induction us with
  | nil => intro count k h; simp [dmRun] at h
  | cons u rest ih =>
    intro count k h
    by_cases hlim : cfg.dailyLimit ≤ count
    · rw [dmRun_stop hlim] at h
      cases h
    · simp only [List.map_cons, List.mem_cons]
      by_cases hdry : cfg.dryRun = true
      · rw [dmRun_cons_dry hlim hdry] at h
        simp only [List.mem_cons] at h
        rcases h with h | h | h
        · exact Or.inl (by cases h; rfl)
        · cases h
        · exact Or.inr (ih (count + 1) k h)
      · rw [Bool.not_eq_true] at hdry
        cases hf : f u with
        | peerFlood =>
          rw [dmRun_cons_peerFlood hlim hdry hf] at h
          simp only [List.mem_cons, List.not_mem_nil, or_false] at h
          rcases h with h | h | h
          · exact Or.inl (by cases h; rfl)
          · cases h
          · cases h
        | floodWait w =>
          rw [dmRun_cons_floodWait hlim hdry hf] at h
          simp only [List.mem_cons, List.not_mem_nil, or_false] at h
          rcases h with h | h
          · exact Or.inl (by cases h; rfl)
          · cases h
        | normal st rs =>
          rw [dmRun_cons_normal hlim hdry hf] at h
          generalize (if st == "Success" then count + 1 else count) = c2 at h
          simp only [List.mem_cons] at h
          rcases h with h | h | h | h
          · exact Or.inl (by cases h; rfl)
          · cases h
          · cases h
          · by_cases hcond : (c2 < cfg.dailyLimit)
            · rw [if_pos hcond] at h
              simp only [List.mem_cons] at h
              rcases h with h | h
              · cases h
              · exact Or.inr (ih c2 k h)
            · rw [if_neg hcond] at h
              exact Or.inr (ih c2 k h)

/-- C2 (amended): `add_patients_to_channel.py` and `safe_dm_invite.py`
never attempt an item whose key (phone / user_id) already appears in
the result log, regardless of the logged status — the remaining lists
are filtered against the full key set of the log.
`invite_users_to_channel.py` performs NO such filtering: it never reads
its result log, so a second invocation re-attempts every item
(counterexample). -/
theorem resume_skips_processed (cfg cfg2 : RunConfig) (f : Patient → ItemResult)
    (g : UserRow → ItemResult) (log log2 : List Record) (patients : List Patient)
    (rows : List UserRow) (c c2 : Nat) (k k2 : String)
    (h1 : Event.attempt k ∈ apRun cfg f (remaining_patients log patients) c)
    (h2 : Event.attempt k2 ∈ dmRun cfg2 g (users_to_contact log2 rows) c2) :
    k ∉ get_processed_phones log ∧ k2 ∉ get_processed_users log2 := by
  constructor
  · have hk := apRun_attempt_mem cfg f (remaining_patients log patients) c k h1
    obtain ⟨p, hp, hphone⟩ := List.mem_map.mp hk
    obtain ⟨_, hcond⟩ := List.mem_filter.mp hp
    rw [← hphone]
    simpa using hcond
  · have hk := dmRun_attempt_mem cfg2 g (users_to_contact log2 rows) c2 k2 h2
    obtain ⟨u, hu, huid⟩ := List.mem_map.mp hk
    obtain ⟨_, hcond⟩ := List.mem_filter.mp hu
    rw [← huid]
    rw [Bool.and_eq_true_iff] at hcond
    simpa using hcond.2

/-- Witness for `resume_skips_processed`: logs holding one processed
key each, inputs holding that key plus a fresh one — the runs attempt
only the fresh keys, which are indeed not in the logs. -/
theorem resume_skips_processed_witness :
    (Event.attempt "+2519b" ∈ apRun ⟨9999, 15, 45, false⟩
        (fun _ => ItemResult.normal "Success" "Added")
        (remaining_patients [⟨"+2519a", "Success", "Added"⟩]
          [⟨"c1", "n", "f", "l", "+2519a"⟩, ⟨"c2", "n", "f", "l", "+2519b"⟩]) 0 ∧
      Event.attempt "2" ∈ dmRun ⟨35, 60, 300, false⟩
        (fun _ => ItemResult.normal "Success" "Sent")
        (users_to_contact [⟨"1", "Failed", "PrivacyRestricted"⟩]
          [⟨"1", "a", "f", "l"⟩, ⟨"2", "b", "f", "l"⟩]) 0) ∧
    ("+2519b" ∉ get_processed_phones [⟨"+2519a", "Success", "Added"⟩] ∧
      "2" ∉ get_processed_users [⟨"1", "Failed", "PrivacyRestricted"⟩]) :=
  ⟨⟨by decide, by decide⟩,
    resume_skips_processed ⟨9999, 15, 45, false⟩ ⟨35, 60, 300, false⟩
      (fun _ => ItemResult.normal "Success" "Added")
      (fun _ => ItemResult.normal "Success" "Sent")
      [⟨"+2519a", "Success", "Added"⟩] [⟨"1", "Failed", "PrivacyRestricted"⟩]
      [⟨"c1", "n", "f", "l", "+2519a"⟩, ⟨"c2", "n", "f", "l", "+2519b"⟩]
      [⟨"1", "a", "f", "l"⟩, ⟨"2", "b", "f", "l"⟩] 0 0 "+2519b" "2"
      (by decide) (by decide)⟩

/-- C2 counterexample: `invite_users_to_channel.py` takes no account of
its prior log — with key `1` present in the prior log, a second
invocation over an input containing key `1` attempts it again. -/
theorem resume_skips_processed_counterexample :
    "1" ∈ get_processed_users [⟨"1", "Success", "Success"⟩] ∧
    Event.attempt "1" ∈
      iuRun (fun _ => IuOutcome.added) 10 5
        (read_users_from_csv [⟨"1", "a", "f", "l"⟩]) := by
  constructor
  · decide
  · rw [show read_users_from_csv [⟨"1", "a", "f", "l"⟩] =
      [⟨"1", "a", "f", "l"⟩] from rfl]
    rw [iuRun]
    rw [dif_neg (by decide), dif_neg (by decide), if_pos (by decide)]
    decide

/-! ## Exit codes -/

/-- C8 (amended): the process exit code is 0 if and only if the
configuration (API id/hash, target channel) is present: configuration
errors exit nonzero at startup, but a MISSING INPUT CSV is caught
(`except ... return` in both scripts), the coroutine returns normally,
and the process exits 0 — contrary to the claim's "non-zero on ...
missing identity source CSV file" (counterexample). -/
theorem exit_codes (e : StartupEnv) (rows : List APRow) (rows2 : List UserRow) :
    ap_process_exit e rows =
      (if e.apiIdSet && e.apiHashSet && e.targetChannelSet then 0 else 1) ∧
    iu_process_exit e rows2 =
      (if e.apiIdSet && e.apiHashSet && e.targetChannelSet then 0 else 1) := by
  obtain ⟨a, b, t, csv⟩ := e
  constructor
  · cases a <;> cases b <;> cases t <;> cases csv <;> rfl
  · cases a <;> cases b <;> cases t <;> cases csv <;> rfl

/-- C8 counterexample: with valid configuration but a missing input
CSV, both scripts exit 0, not nonzero. -/
theorem exit_codes_counterexample :
    ap_process_exit ⟨true, true, true, false⟩ [] = 0 ∧
    iu_process_exit ⟨true, true, true, false⟩ [] = 0 :=
  ⟨rfl, rfl⟩

end AddToChannel
